import Mathlib

/-!
Verification of the RustZX presentation loop (`src/rustzx/src/app/rustzx.rs`)
and the `FrameBuffer` rendering-target contract
(`src/rustzx-core/src/host/frame_buffer.rs`).

Modelling conventions:
* Rust `std::time::Duration` values are modelled as natural numbers of
  nanoseconds.  Every duration occurring in the loop is far below one second
  (the frame target is 20 ms, the emulation budget 100 ms), where
  `Duration * u32` and `Duration / u32` are exactly natural-number
  multiplication and floor division on total nanoseconds.
* Wall-clock readings (`Instant::now` / `elapsed`) and the work done by the
  external `Emulator` collaborator (`emulate_frames`, the samples it pushes
  into the mixer) are oracle inputs supplied to each iteration
  (`IterInput`).
* The side effects of one iteration (samples forwarded to the sound device,
  `set_speed`/`send_key` calls, title updates, sleeps) are collected in an
  `IterOutput` trace record.
-/

namespace Rustzx

/-- Audio sample forwarded from the emulator mixer to the sound device;
its payload is irrelevant to the scheduler, modelled as `ℕ`. -/
abbrev Sample := ℕ

/-- Speed multiplier carried by `Event::ChangeSpeed` and stored by
`Emulator::set_speed`.  An `f64` in the code; the scheduler only transports
the value, never computes with it, so it is modelled as an exact `ℚ`. -/
abbrev Speed := ℚ

/-- Key code (payload of `Event::GameKey` / `Event::Kempston`). -/
abbrev Key := ℕ

/-- Input events produced by `EventDevice::pop_event` — the variants matched
in `RustzxApp::start` (src/rustzx/src/app/rustzx.rs, lines 163-193). -/
inductive Event
  | exit
  | gameKey (key : Key) (state : Bool)
  | switchDebug
  | changeSpeed (speed : Speed)
  | kempston (key : Key) (state : Bool)
  | insertTape
  | stopTape
  | openFile (path : ℕ)
  deriving DecidableEq, Repr

/-- The slice of the external `Emulator`'s observable state that the loop in
`RustzxApp::start` reads or writes: `have_sound()`, `set_speed`, the
`controller.mixer` queue, `controller.tape`, `controller.kempston`,
`controller.send_key`.  The `Emulator` itself is an external collaborator
(rustzx-core, not under src/); only the interface the loop uses is modelled.
`haveSound` is re-read from the emulator wherever the code calls
`have_sound()`; no modelled operation changes it. -/
structure EmulatorState where
  haveSound : Bool
  speed : Speed
  mixer : List Sample
  tapePlaying : Bool
  kempston : Option (List (Key × Bool))
  keys : List (Key × Bool)
  deriving DecidableEq, Repr

/-- State of `RustzxApp` relevant to the loop: the emulator, whether a sound
device was configured at startup (`snd : Option<Box<dyn SoundDevice>>` in
`RustzxApp::from_config` — `sndPresent` is `snd.is_some()`), the `debug`
flag of `start`, and the queue of pending input events from which
`pop_event` takes the front element. -/
structure AppState where
  emulator : EmulatorState
  sndPresent : Bool
  debug : Bool
  events : List Event
  deriving DecidableEq, Repr

/-- Per-iteration oracle inputs: `cpu_dt` returned by `emulate_frames`, the
samples `emulate_frames` appended to the mixer queue, the wall-clock reading
`emulation_dt = frame_start.elapsed()` taken before the sleep decision, and
the reading `frame_dt = frame_start.elapsed()` taken after it.  All
durations in nanoseconds. -/
structure IterInput where
  cpuDtNs : ℕ
  newSamples : List Sample
  emulationDtNs : ℕ
  frameDtNs : ℕ
  deriving DecidableEq, Repr

/-- A `VideoDevice::set_title` call: either the default title
`"RustZX v{CARGO_PKG_VERSION}"` (restored when debug is switched off) or the
debug overlay text. -/
inductive TitleCall
  | defaultTitle
  | overlay (text : String)
  deriving DecidableEq, Repr

/-- Observable side effects of one loop iteration. -/
structure IterOutput where
  /-- samples forwarded via `snd.send_sample`, in queue order -/
  samplesSent : List Sample
  /-- `controller.send_key` calls -/
  keyCalls : List (Key × Bool)
  /-- `emulator.set_speed` calls -/
  speedCalls : List Speed
  /-- `video.set_title` calls -/
  titleCalls : List TitleCall
  /-- `thread::sleep` calls (nanoseconds) -/
  sleeps : List ℕ
  /-- the event returned by this iteration's single `pop_event` call -/
  polled : Option Event
  /-- whether this iteration executed `break 'emulator` -/
  exited : Bool
  deriving DecidableEq, Repr

/-- `frame_length` (src/rustzx/src/app/rustzx.rs, lines 52-55):
`Duration::from_millis((1000 as f64 / fps as f64) as u64)`, in milliseconds.
The `f64` quotient is modelled as the exact rational `1000 / fps`; the
`as u64` cast truncates toward zero, i.e. takes the natural floor.  For
every positive `fps` this is faithful: the distance from the exact quotient
to the nearest larger integer is at least `1 / fps`, which vastly exceeds
the largest possible `f64` rounding error of the quotient (about `2⁻⁴⁴` for
quotients up to 1000), so IEEE rounding never carries the value across a
truncation boundary. -/
def frame_length (fps : ℕ) : ℕ := ⌊(1000 : ℚ) / (fps : ℚ)⌋₊

/-- `wait_koef` (line 197): `if self.emulator.have_sound() { 9 } else { 10 }`. -/
def wait_koef (haveSound : Bool) : ℕ := if haveSound then 9 else 10

/-- The sleep scheduled at the end of an iteration (lines 196-200):
`some` of the argument of `thread::sleep` when `emulation_dt <
frame_target_dt`, `none` when no sleep happens.
`(frame_target_dt - emulation_dt) * wait_koef / 10` in nanoseconds. -/
def sleepTime (target emuDt : ℕ) (haveSound : Bool) : Option ℕ :=
  if emuDt < target then some ((target - emuDt) * wait_koef haveSound / 10) else none

/-- Rust `Duration` subtraction, which panics on underflow: `none` models
the panic branch. -/
def durSub (a b : ℕ) : Option ℕ := if b ≤ a then some (a - b) else none

/-- The sleep computation with the `Duration` subtraction's panic branch
explicit: outer `none` models a panic, `some o` a normal outcome with sleep
`o`. -/
def sleepTimeChecked (target emuDt : ℕ) (haveSound : Bool) : Option (Option ℕ) :=
  if emuDt < target then
    match durSub target emuDt with
    | some d => some (some (d * wait_koef haveSound / 10))
    | none => none
  else some none

/-- Left-pads a string with spaces to width 7 — Rust's `{:7}` for a
right-aligned numeric argument. -/
def padLeft7 (s : String) : String :=
  String.mk (List.replicate (7 - s.length) ' ') ++ s

/-- The debug title the code actually produces (lines 205-209):
`format!("CPU: {:7.3}ms; FRAME:{:7.3}ms", cpu_dt.as_millis(),
frame_dt.as_millis())`.  `as_millis()` yields an integer (`u128`) number of
whole milliseconds, and Rust ignores the `.3` precision for integral
arguments, so each field renders as the integer right-aligned to width 7
with no decimal point. -/
def formatTitleCode (cpuMs frameMs : ℕ) : String :=
  "CPU: " ++ padLeft7 (toString cpuMs) ++ "ms; FRAME:" ++ padLeft7 (toString frameMs) ++ "ms"

/-- Pads a fractional part to exactly three digits with leading zeros. -/
def padZeros3 (n : ℕ) : String :=
  String.mk (List.replicate (3 - (toString n).length) '0') ++ toString n

/-- Modelled from the spec: one duration field of the intended debug
overlay — milliseconds with three decimal places, right-aligned to field
width 7 (spec section 6: `"CPU: {cpu_ms:7.3}ms; FRAME:{frame_ms:7.3}ms"`).
The input is nanoseconds; three decimal places of milliseconds is
microsecond resolution. -/
def formatMs3 (ns : ℕ) : String :=
  padLeft7 (toString (ns / 1000000) ++ "." ++ padZeros3 (ns / 1000 % 1000))

/-- Modelled from the spec: the intended debug-overlay title, with both
durations shown to three decimal places of milliseconds. -/
def formatTitleSpec (cpuNs frameNs : ℕ) : String :=
  "CPU: " ++ formatMs3 cpuNs ++ "ms; FRAME:" ++ formatMs3 frameNs ++ "ms"

/-- Result of handling one polled event (the `match event` at lines
164-192): updated emulator state and debug flag, the calls issued while
handling it, and whether `break 'emulator` ran. -/
structure EventResult where
  emulator : EmulatorState
  debug : Bool
  speedCalls : List Speed
  keyCalls : List (Key × Bool)
  titleCalls : List TitleCall
  exited : Bool
  deriving DecidableEq, Repr

/-- The `match event` arms of `RustzxApp::start` (lines 164-192). -/
def handleEvent (em : EmulatorState) (debug : Bool) : Event → EventResult
  | .exit => ⟨em, debug, [], [], [], true⟩
  | .gameKey k st => ⟨{ em with keys := em.keys ++ [(k, st)] }, debug, [], [(k, st)], [], false⟩
  | .switchDebug =>
      ⟨em, !debug, [], [], if !debug then [] else [TitleCall.defaultTitle], false⟩
  | .changeSpeed sp => ⟨{ em with speed := sp }, debug, [sp], [], [], false⟩
  | .kempston k st =>
      ⟨{ em with kempston := em.kempston.map (fun l => l ++ [(k, st)]) }, debug, [], [], [], false⟩
  | .insertTape => ⟨{ em with tapePlaying := true }, debug, [], [], [], false⟩
  | .stopTape => ⟨{ em with tapePlaying := false }, debug, [], [], [], false⟩
  | .openFile _ => ⟨em, debug, [], [], [], false⟩

/-- One iteration of the `'emulator` loop in `RustzxApp::start`
(lines 117-211), with target frame duration `t` nanoseconds
(`frame_target_dt = frame_length(FPS)`, recomputed identically every
iteration).  Step order, as in the code: emulate (mixer gains
`inp.newSamples`); drain the mixer to the sound device if one is present
and `have_sound()`; upload textures and render (no observable trace
beyond ordering); poll one event and handle it — `Event::Exit` breaks out
before the sleep and title steps; otherwise sleep when `emulation_dt <
frame_target_dt`; finally, when `debug` is set, set the overlay title from
`cpu_dt.as_millis()` and `frame_dt.as_millis()`. -/
def step (t : ℕ) (s : AppState) (inp : IterInput) : AppState × IterOutput :=
  let em0 : EmulatorState := { s.emulator with mixer := s.emulator.mixer ++ inp.newSamples }
  let drain := s.sndPresent && em0.haveSound
  let samplesSent := if drain then em0.mixer else []
  let em1 := if drain then { em0 with mixer := ([] : List Sample) } else em0
  let r : EventResult :=
    match s.events.head? with
    | none => ⟨em1, s.debug, [], [], [], false⟩
    | some e => handleEvent em1 s.debug e
  if r.exited then
    (⟨r.emulator, s.sndPresent, r.debug, s.events.tail⟩,
      ⟨samplesSent, r.keyCalls, r.speedCalls, r.titleCalls, [], s.events.head?, true⟩)
  else
    (⟨r.emulator, s.sndPresent, r.debug, s.events.tail⟩,
      ⟨samplesSent, r.keyCalls, r.speedCalls,
        r.titleCalls ++
          (if r.debug then
            [TitleCall.overlay (formatTitleCode (inp.cpuDtNs / 1000000) (inp.frameDtNs / 1000000))]
          else []),
        (sleepTime t inp.emulationDtNs r.emulator.haveSound).toList,
        s.events.head?, false⟩)

/-- The `'emulator` loop: iterate `step` over the per-iteration oracle
inputs, stopping at `break 'emulator`.  Returns the final state and the
trace of the iterations that executed. -/
def run (t : ℕ) : AppState → List IterInput → AppState × List IterOutput
  | s, [] => (s, [])
  | s, inp :: rest =>
      if (step t s inp).2.exited then ((step t s inp).1, [(step t s inp).2])
      else ((run t (step t s inp).1 rest).1, (step t s inp).2 :: (run t (step t s inp).1 rest).2)

/-- The speed value an event forwards to `set_speed`, if any. -/
def speedOf : Event → Option Speed
  | .changeSpeed v => some v
  | _ => none

end Rustzx

namespace Rustzx

/-! ### FrameBuffer contract (src/rustzx-core/src/host/frame_buffer.rs) -/

/-- Modelled from the spec: the 8-hue palette of `ZXColor`
(rustzx-core's `zx::video::colors`, not under src/; spec section 3:
"a fixed 8-hue × 2-brightness palette"). -/
inductive ZXColor
  | black | blue | red | magenta | green | cyan | yellow | white
  deriving DecidableEq, Repr

/-- Modelled from the spec: the two brightness levels of `ZXBrightness`. -/
inductive ZXBrightness
  | normal | bright
  deriving DecidableEq, Repr

/-- Modelled from the spec: a canonical implementation of the `FrameBuffer`
trait (the trait in src/ has no implementation under src/).  Spec section 3:
width and height fixed at construction; a pixel store addressed by
coordinates; each written pixel carries a (hue, brightness) pair. -/
structure ModelFrameBuffer where
  width : ℕ
  height : ℕ
  pix : ℕ → ℕ → Option (ZXColor × ZXBrightness)

/-- `FrameBuffer::set_color`: "Set `color` with `brightness` for pixel on
canvas at (`x`, `y`)". -/
def set_color (fb : ModelFrameBuffer) (x y : ℕ) (c : ZXColor) (b : ZXBrightness) :
    ModelFrameBuffer :=
  { fb with pix := fun a bb => if a = x ∧ bb = y then some (c, b) else fb.pix a bb }

/-- Modelled from the spec: `FrameBuffer::set_colors` — "sets 8 horizontally
contiguous pixels starting at (x, y) sharing one brightness value"
(spec section 4.1); written here as one combined update of the whole
8-pixel run. -/
def set_colors (fb : ModelFrameBuffer) (x y : ℕ) (cs : Fin 8 → ZXColor) (b : ZXBrightness) :
    ModelFrameBuffer :=
  { fb with pix := fun a bb =>
      if h : x ≤ a ∧ a < x + 8 ∧ bb = y then some (cs ⟨a - x, by omega⟩, b)
      else fb.pix a bb }

/-- The eight sequential calls `set_color(x+i, y, colors[i], b)` for
`i = 0..7`. -/
def set_color_seq (fb : ModelFrameBuffer) (x y : ℕ) (cs : Fin 8 → ZXColor) (b : ZXBrightness) :
    ModelFrameBuffer :=
  set_color (set_color (set_color (set_color (set_color (set_color (set_color (set_color
    fb x y (cs ⟨0, by omega⟩) b)
    (x + 1) y (cs ⟨1, by omega⟩) b)
    (x + 2) y (cs ⟨2, by omega⟩) b)
    (x + 3) y (cs ⟨3, by omega⟩) b)
    (x + 4) y (cs ⟨4, by omega⟩) b)
    (x + 5) y (cs ⟨5, by omega⟩) b)
    (x + 6) y (cs ⟨6, by omega⟩) b)
    (x + 7) y (cs ⟨7, by omega⟩) b

/-! ### Concrete instances used to evaluate the model -/

/-- A quiescent emulator: sound generation off, speed 1, empty mixer,
tape stopped, no joystick. -/
def emuBase : EmulatorState := ⟨false, 1, [], false, none, []⟩

/-- Iteration with zero cost and no new samples. -/
def iZero : IterInput := ⟨0, [], 0, 0⟩

/-- Iteration costing 5 ms of CPU, elapsed 5 ms at the sleep check,
20 ms in total. -/
def iFive : IterInput := ⟨5000000, [], 5000000, 20000000⟩

/-- Sound device configured and emulator sound enabled. -/
def sSoundOn : AppState := ⟨{ emuBase with haveSound := true }, true, false, []⟩

/-- Sound device configured, emulator sound disabled. -/
def sSoundOff : AppState := ⟨emuBase, true, false, []⟩

/-- Debug overlay flag set, empty event queue. -/
def sDebug : AppState := ⟨emuBase, false, true, []⟩

/-- No sound device configured, emulator sound enabled, one queued
sample. -/
def sNoSink : AppState := ⟨{ emuBase with haveSound := true, mixer := [7] }, false, false, []⟩

/-- Event queue holding one non-exit event followed by `Exit`. -/
def sExit2 : AppState := ⟨emuBase, false, false, [Event.switchDebug, Event.exit]⟩

/-- An 8×8 framebuffer with no pixel written yet. -/
def wFB : ModelFrameBuffer := ⟨8, 8, fun _ _ => none⟩

/-! ### Helper lemmas about one iteration -/

theorem handleEvent_exited_iff (em : EmulatorState) (d : Bool) (e : Event) :
    (handleEvent em d e).exited = true ↔ e = Event.exit := by
  cases e <;> simp [handleEvent]

theorem step_polled (t : ℕ) (s : AppState) (inp : IterInput) :
    (step t s inp).2.polled = s.events.head? := by
  rcases s with ⟨em, sp, d, evts⟩
  cases evts with
  | nil => simp [step]
  | cons e es => cases e <;> simp [step, handleEvent]

theorem step_events (t : ℕ) (s : AppState) (inp : IterInput) :
    (step t s inp).1.events = s.events.tail := by
  rcases s with ⟨em, sp, d, evts⟩
  cases evts with
  | nil => simp [step]
  | cons e es => cases e <;> simp [step, handleEvent]

theorem step_sndPresent (t : ℕ) (s : AppState) (inp : IterInput) :
    (step t s inp).1.sndPresent = s.sndPresent := by
  rcases s with ⟨em, sp, d, evts⟩
  cases evts with
  | nil => simp [step]
  | cons e es => cases e <;> simp [step, handleEvent]

theorem step_exited_iff (t : ℕ) (s : AppState) (inp : IterInput) :
    (step t s inp).2.exited = true ↔ s.events.head? = some Event.exit := by
  rcases s with ⟨em, sp, d, evts⟩
  cases evts with
  | nil => simp [step]
  | cons e es => cases e <;> simp [step, handleEvent]

theorem step_not_exit (t : ℕ) (s : AppState) (inp : IterInput) (e : Event)
    (he : s.events.head? = some e) (hne : e ≠ Event.exit) :
    (step t s inp).2.exited = false := by
  cases hx : (step t s inp).2.exited with
  | false => rfl
  | true =>
      have h2 := (step_exited_iff t s inp).1 hx
      rw [he] at h2
      exact absurd (Option.some_injective _ h2) hne

theorem step_samplesSent (t : ℕ) (s : AppState) (inp : IterInput) :
    (step t s inp).2.samplesSent =
      if s.sndPresent && s.emulator.haveSound then s.emulator.mixer ++ inp.newSamples else [] := by
  rcases s with ⟨⟨hs, spd, mx, tp, kj, ks⟩, sp, d, evts⟩
  cases evts with
  | nil => simp [step]
  | cons e es => cases e <;> simp [step, handleEvent]

theorem step_mixer (t : ℕ) (s : AppState) (inp : IterInput) :
    (step t s inp).1.emulator.mixer =
      if s.sndPresent && s.emulator.haveSound then [] else s.emulator.mixer ++ inp.newSamples := by
  rcases s with ⟨⟨hs, spd, mx, tp, kj, ks⟩, sp, d, evts⟩
  cases evts with
  | nil => cases sp <;> cases hs <;> simp [step]
  | cons e es => cases e <;> cases sp <;> cases hs <;> simp [step, handleEvent]

theorem step_exit_outputs (t : ℕ) (s : AppState) (inp : IterInput)
    (h : s.events.head? = some Event.exit) :
    (step t s inp).2.sleeps = [] ∧ (step t s inp).2.titleCalls = [] := by
  rcases s with ⟨em, sp, d, evts⟩
  cases evts with
  | nil => simp at h
  | cons e es =>
      simp only [List.head?_cons, Option.some.injEq] at h
      subst h
      simp [step, handleEvent]

theorem step_sleeps (t : ℕ) (s : AppState) (inp : IterInput) :
    (step t s inp).2.sleeps =
      if (step t s inp).2.exited then []
      else (sleepTime t inp.emulationDtNs (step t s inp).1.emulator.haveSound).toList := by
  rcases s with ⟨em, sp, d, evts⟩
  cases evts with
  | nil => simp [step]
  | cons e es => cases e <;> simp [step, handleEvent]

theorem step_speedCalls (t : ℕ) (s : AppState) (inp : IterInput) :
    (step t s inp).2.speedCalls = ((step t s inp).2.polled.bind speedOf).toList := by
  rcases s with ⟨em, sp, d, evts⟩
  cases evts with
  | nil => simp [step, speedOf]
  | cons e es => cases e <;> simp [step, handleEvent, speedOf]

/-! ### Helper lemmas about whole runs -/

theorem run_no_sink (t : ℕ) (inps : List IterInput) :
    ∀ s : AppState, s.sndPresent = false →
      ∀ o ∈ (run t s inps).2, o.samplesSent = [] := by
  induction inps with
  | nil => intro s _ o ho; simp [run] at ho
  | cons i rest ih =>
      intro s h o ho
      by_cases hex : (step t s i).2.exited = true
      · simp only [run, if_pos hex, List.mem_singleton] at ho
        subst ho
        rw [step_samplesSent]
        simp [h]
      · simp only [run, if_neg hex, List.mem_cons] at ho
        rcases ho with rfl | ho'
        · rw [step_samplesSent]
          simp [h]
        · exact ih (step t s i).1 (by rw [step_sndPresent]; exact h) o ho'

theorem run_exit (t : ℕ) (pre : List Event) :
    ∀ (s : AppState) (inps : List IterInput) (rest : List Event),
      s.events = pre ++ Event.exit :: rest → Event.exit ∉ pre → pre.length < inps.length →
      (run t s inps).2.length = pre.length + 1 ∧
      ∃ o, (run t s inps).2.getLast? = some o ∧ o.exited = true ∧
        o.sleeps = [] ∧ o.titleCalls = [] := by
  induction pre with
  | nil =>
      intro s inps rest hq hpre hlen
      cases inps with
      | nil => simp at hlen
      | cons i is =>
          have hhead : s.events.head? = some Event.exit := by rw [hq]; rfl
          have hex : (step t s i).2.exited = true := (step_exited_iff t s i).2 hhead
          have hout := step_exit_outputs t s i hhead
          refine ⟨by simp [run, hex], (step t s i).2, by simp [run, hex], hex, hout.1, hout.2⟩
  | cons e pre' ih =>
      intro s inps rest hq hpre hlen
      cases inps with
      | nil => simp at hlen
      | cons i is =>
          have hhead : s.events.head? = some e := by rw [hq]; rfl
          have hne : e ≠ Event.exit := by
            rintro rfl
            exact hpre (List.mem_cons_self _ _)
          have hex : (step t s i).2.exited = false := step_not_exit t s i e hhead hne
          have hq' : (step t s i).1.events = pre' ++ Event.exit :: rest := by
            rw [step_events, hq]; rfl
          have hpre' : Event.exit ∉ pre' := fun hm => hpre (List.mem_cons_of_mem _ hm)
          have hlen' : pre'.length < is.length := by
            simp only [List.length_cons] at hlen
            omega
          obtain ⟨hlenIH, o, hlast, ho⟩ := ih (step t s i).1 is rest hq' hpre' hlen'
          have hexF : ¬((step t s i).2.exited = true) := by rw [hex]; simp
          constructor
          · simp only [run, if_neg hexF, List.length_cons, hlenIH, List.length_cons]
          · refine ⟨o, ?_, ho⟩
            simp only [run, if_neg hexF]
            cases houts : (run t (step t s i).1 is).2 with
            | nil => rw [houts] at hlenIH; simp at hlenIH
            | cons o1 l1 =>
                rw [houts] at hlast
                rw [List.getLast?_cons_cons]
                exact hlast

theorem run_polled_take (t : ℕ) (inps : List IterInput) :
    ∀ s : AppState,
      ((run t s inps).2.filterMap IterOutput.polled) =
        s.events.take (run t s inps).2.length := by
  induction inps with
  | nil => intro s; simp [run]
  | cons i rest ih =>
      intro s
      have hp := step_polled t s i
      have he := step_events t s i
      by_cases hex : (step t s i).2.exited = true
      · have hhead := (step_exited_iff t s i).1 hex
        simp only [run, hex, if_true]
        rcases hevts : s.events with _ | ⟨e, es⟩
        · rw [hevts] at hhead; simp at hhead
        · rw [hevts] at hp
          simp [List.filterMap_cons, hp]
      · simp only [run, hex, if_false]
        rcases hevts : s.events with _ | ⟨e, es⟩
        · rw [hevts] at hp he
          have := ih (step t s i).1
          rw [he] at this
          simp [List.filterMap_cons, hp, this]
        · rw [hevts] at hp he
          have := ih (step t s i).1
          rw [he] at this
          simp only [List.tail_cons] at this
          simp [List.filterMap_cons, hp, this]

theorem filterMap_toList {α β : Type} (f : α → Option β) (o : Option α) :
    o.toList.filterMap f = (o.bind f).toList := by
  cases o with
  | none => rfl
  | some a => cases hfa : f a <;> simp [hfa]

theorem run_speedCalls (t : ℕ) (inps : List IterInput) :
    ∀ s : AppState,
      ((run t s inps).2.map IterOutput.speedCalls).flatten =
        ((run t s inps).2.filterMap IterOutput.polled).filterMap speedOf := by
  induction inps with
  | nil => intro s; simp [run]
  | cons i rest ih =>
      intro s
      have hsc := step_speedCalls t s i
      by_cases hex : (step t s i).2.exited = true
      · simp only [run, if_pos hex, List.map_cons, List.map_nil, List.flatten_cons,
          List.flatten_nil, List.append_nil, List.filterMap_cons]
        cases hpol : (step t s i).2.polled with
        | none => rw [hsc, hpol]; rfl
        | some e =>
            rw [hsc, hpol]
            cases e <;> simp [speedOf]
      · simp only [run, if_neg hex, List.map_cons, List.flatten_cons, List.filterMap_cons]
        cases hpol : (step t s i).2.polled with
        | none => rw [hsc, hpol, ih (step t s i).1]; rfl
        | some e =>
            rw [hsc, hpol]
            cases e <;> simp [speedOf, ih (step t s i).1]

/-! ### The claims -/

/-- Claim C4 (confirmed): for every positive integer FPS, the target frame
duration computed by `frame_length` equals `⌊1000 / fps⌋` milliseconds
exactly (the `f64` quotient is modelled as the exact rational quotient; see
the doc comment of `frame_length`). -/
theorem frame_length_is_floor_div (fps : ℕ) (h : 0 < fps) :
    frame_length fps = 1000 / fps := by
  unfold frame_length
  rw [show (1000 : ℚ) = ((1000 : ℕ) : ℚ) by norm_cast]
  exact Nat.floor_div_eq_div 1000 fps

theorem frame_length_is_floor_div_witness : 0 < 50 ∧ frame_length 50 = 1000 / 50 :=
  ⟨by decide, frame_length_is_floor_div 50 (by decide)⟩

/-- Claim C9 (confirmed): the end-of-iteration sleep branch is guarded by
`emulation_dt < frame_target_dt`, so the `Duration` subtraction
`frame_target_dt - emulation_dt` never underflows — `sleepTimeChecked`,
which makes the panic branch explicit, always returns the normal outcome —
and no sleep at all is scheduled exactly when the elapsed time reaches the
target; an iteration's sleep trace is what `sleepTime` prescribes (and
empty on exit). -/
theorem sleep_guard_never_underflows (target emuDt : ℕ) (hs : Bool)
    (t : ℕ) (s : AppState) (inp : IterInput) :
    sleepTimeChecked target emuDt hs = some (sleepTime target emuDt hs) ∧
    (sleepTime target emuDt hs = none ↔ target ≤ emuDt) ∧
    (step t s inp).2.sleeps =
      (if (step t s inp).2.exited then []
       else (sleepTime t inp.emulationDtNs (step t s inp).1.emulator.haveSound).toList) := by
  refine ⟨?_, ?_, step_sleeps t s inp⟩
  · unfold sleepTimeChecked sleepTime durSub
    by_cases hlt : emuDt < target
    · simp [hlt, Nat.le_of_lt hlt]
    · simp [hlt]
  · constructor
    · intro hn
      unfold sleepTime at hn
      by_cases hlt : emuDt < target
      · rw [if_pos hlt] at hn
        exact absurd hn (by simp)
      · omega
    · intro hge
      unfold sleepTime
      rw [if_neg (by omega)]

/-- Claim C1 (corrected): counterexample to the claim as stated.  With
sound enabled, elapsed 5 ms and target 20 ms, the scheduled sleep is
`(15 ms × 9) / 10 = 13.5 ms` — `Duration` arithmetic is exact to the
nanosecond — not `floor(15 × 9/10) = 13 ms`. -/
theorem sleep_13ms_counterexample :
    (step 20000000 sSoundOn iFive).2.sleeps = [13500000] ∧
    (step 20000000 sSoundOn iFive).2.sleeps ≠ [13000000] := by
  constructor
  · decide
  · decide

/-- Claim C1 (corrected, amended): for every iteration not terminated by an
Exit event whose elapsed time is below the target, the scheduled sleep is
`(target − elapsed) × wait_koef / 10` nanoseconds, `wait_koef` being 9 when
the emulator's sound is enabled at the sleep check and 10 otherwise;
in particular with sound disabled, elapsed 5 ms, target 20 ms the sleep is
15 ms, and with sound enabled 13.5 ms. -/
theorem sleep_formula (t : ℕ) (s : AppState) (inp : IterInput)
    (hnx : (step t s inp).2.exited = false) (hlt : inp.emulationDtNs < t) :
    (step t s inp).2.sleeps =
      [(t - inp.emulationDtNs) * wait_koef (step t s inp).1.emulator.haveSound / 10] := by
  rw [step_sleeps, hnx]
  simp [sleepTime, hlt]

theorem sleep_formula_witness :
    ((step 20000000 sSoundOff iFive).2.exited = false ∧ iFive.emulationDtNs < 20000000) ∧
    (step 20000000 sSoundOff iFive).2.sleeps =
      [(20000000 - iFive.emulationDtNs) *
        wait_koef (step 20000000 sSoundOff iFive).1.emulator.haveSound / 10] :=
  ⟨⟨by decide, by decide⟩, sleep_formula 20000000 sSoundOff iFive (by decide) (by decide)⟩

/-- Claim C2 (code_bug): when the debug flag is set, the title is updated,
but the code passes `cpu_dt.as_millis()` and `frame_dt.as_millis()` —
integers — to the `{:7.3}` format, and Rust ignores the precision for
integral arguments: the rendered title shows whole milliseconds with no
decimal places ("CPU:       5ms; FRAME:     20ms"), not the three decimal
places the format string and the spec intend
("CPU:   5.000ms; FRAME: 20.000ms"). -/
theorem debug_title_integer_ms :
    (step 20000000 sDebug iFive).2.titleCalls =
      [TitleCall.overlay "CPU:       5ms; FRAME:     20ms"] ∧
    formatTitleSpec 5000000 20000000 = "CPU:   5.000ms; FRAME: 20.000ms" ∧
    formatTitleCode 5 20 ≠ formatTitleSpec 5000000 20000000 := by
  refine ⟨?_, ?_, ?_⟩ <;> decide

/-- Claim C3 (corrected): counterexample to the claim as stated.  Sound is
enabled on the emulator and a sample is queued, but no sound device was
configured (`snd` is `None`), so the iteration forwards nothing and leaves
the queue untouched. -/
theorem drain_needs_sink_counterexample :
    sNoSink.emulator.haveSound = true ∧
    sNoSink.emulator.mixer = [7] ∧
    (step 20000000 sNoSink iZero).2.samplesSent = [] ∧
    (step 20000000 sNoSink iZero).1.emulator.mixer = [7] := by
  refine ⟨rfl, rfl, ?_, ?_⟩ <;> decide

/-- Claim C3 (corrected, amended): in every iteration, if a sound device is
configured **and** sound is enabled on the emulator, all queued samples are
drained and forwarded to it in queue order; otherwise — sound disabled or
no sound device — no sample is popped or forwarded, even when samples are
queued. -/
theorem audio_drain_requires_sink (t : ℕ) (s : AppState) (inp : IterInput) :
    (step t s inp).2.samplesSent =
      (if s.sndPresent && s.emulator.haveSound then s.emulator.mixer ++ inp.newSamples
       else []) ∧
    (step t s inp).1.emulator.mixer =
      (if s.sndPresent && s.emulator.haveSound then []
       else s.emulator.mixer ++ inp.newSamples) :=
  ⟨step_samplesSent t s inp, step_mixer t s inp⟩

/-- Claim C10 (confirmed): if no sound device was configured at startup,
then in every iteration of every run no audio sample is forwarded anywhere,
and the mixer queue is never popped (it only accumulates the samples the
emulator pushed), regardless of `have_sound()` and of how many samples are
queued. -/
theorem no_sound_device_never_drains (t : ℕ) (s : AppState) (inps : List IterInput)
    (inp : IterInput) (h : s.sndPresent = false) :
    (∀ o ∈ (run t s inps).2, o.samplesSent = []) ∧
    (step t s inp).1.emulator.mixer = s.emulator.mixer ++ inp.newSamples := by
  refine ⟨run_no_sink t inps s h, ?_⟩
  rw [step_mixer]
  simp [h]

theorem no_sound_device_never_drains_witness :
    sNoSink.sndPresent = false ∧
    ((∀ o ∈ (run 20000000 sNoSink [iZero]).2, o.samplesSent = []) ∧
      (step 20000000 sNoSink iZero).1.emulator.mixer =
        sNoSink.emulator.mixer ++ iZero.newSamples) :=
  ⟨rfl, no_sound_device_never_drains 20000000 sNoSink [iZero] iZero rfl⟩

/-- Claim C5 (confirmed): when the event source yields an Exit event at
iteration N (and no Exit earlier) and enough iterations are available, the
loop performs exactly N iterations; the final iteration breaks before the
sleep and title steps (its sleep and title traces are empty), and no
iteration N+1 appears in the trace. -/
theorem exit_stops_loop (t : ℕ) (s : AppState) (inps : List IterInput)
    (pre rest : List Event) (hq : s.events = pre ++ Event.exit :: rest)
    (hpre : Event.exit ∉ pre) (hlen : pre.length < inps.length) :
    (run t s inps).2.length = pre.length + 1 ∧
    ∃ o, (run t s inps).2.getLast? = some o ∧ o.exited = true ∧
      o.sleeps = [] ∧ o.titleCalls = [] :=
  run_exit t pre s inps rest hq hpre hlen

theorem exit_stops_loop_witness :
    (sExit2.events = [Event.switchDebug] ++ Event.exit :: [] ∧
      Event.exit ∉ [Event.switchDebug] ∧
      ([Event.switchDebug] : List Event).length <
        ([iZero, iZero, iZero] : List IterInput).length) ∧
    ((run 20000000 sExit2 [iZero, iZero, iZero]).2.length =
        [Event.switchDebug].length + 1 ∧
      ∃ o, (run 20000000 sExit2 [iZero, iZero, iZero]).2.getLast? = some o ∧
        o.exited = true ∧ o.sleeps = [] ∧ o.titleCalls = []) :=
  ⟨⟨rfl, by decide, by decide⟩,
    exit_stops_loop 20000000 sExit2 [iZero, iZero, iZero] [Event.switchDebug] []
      rfl (by decide) (by decide)⟩

/-- Claim C6 (confirmed): each iteration polls at most one event — the
events observed over a run are an in-order prefix of the queue, one per
iteration that ran — hence the number of events observed never exceeds the
number of iterations, so K queued events need at least K iterations. -/
theorem one_event_per_iteration (t : ℕ) (s : AppState) (inps : List IterInput) :
    ((run t s inps).2.filterMap IterOutput.polled) =
      s.events.take (run t s inps).2.length ∧
    ((run t s inps).2.filterMap IterOutput.polled).length ≤ (run t s inps).2.length := by
  refine ⟨run_polled_take t inps s, ?_⟩
  rw [run_polled_take t inps s, List.length_take]
  omega

/-- Claim C7 (confirmed): an iteration calls `set_speed` exactly once with
the unmodified value `v` when its polled event is `ChangeSpeed(v)`, and
never otherwise; across a whole run the set_speed calls are exactly the
ChangeSpeed payloads observed, in order — never batched or duplicated. -/
theorem changeSpeed_exactly_once (t : ℕ) (s : AppState) (inps : List IterInput)
    (inp : IterInput) :
    (step t s inp).2.speedCalls = ((step t s inp).2.polled.bind speedOf).toList ∧
    ((run t s inps).2.map IterOutput.speedCalls).flatten =
      ((run t s inps).2.filterMap IterOutput.polled).filterMap speedOf :=
  ⟨step_speedCalls t s inp, run_speedCalls t inps s⟩

/-- Claim C8 (confirmed, against the spec-modelled canonical
implementation): for an in-bounds 8-pixel run, `set_colors` is observably
equivalent to the eight sequential `set_color` calls with the same
brightness — every pixel read afterwards yields the same result. -/
theorem set_colors_equiv_eight_set_color (fb : ModelFrameBuffer) (x y : ℕ)
    (cs : Fin 8 → ZXColor) (b : ZXBrightness) (h : x + 8 ≤ fb.width) :
    ∀ a bb : ℕ, (set_colors fb x y cs b).pix a bb = (set_color_seq fb x y cs b).pix a bb := by
  intro a bb
  simp only [set_colors, set_color_seq, set_color]
  by_cases hy : bb = y
  · subst hy
    split_ifs with h1 h2 h3 h4 h5 h6 h7 h8 h9 <;>
      first
        | rfl
        | omega
        | (simp only [Option.some.injEq, Prod.mk.injEq]
           exact ⟨congrArg cs (by simp only [Fin.mk.injEq]; omega), by trivial⟩)
  · simp [hy]

theorem set_colors_equiv_eight_set_color_witness :
    0 + 8 ≤ wFB.width ∧
    ∀ a bb : ℕ,
      (set_colors wFB 0 0 (fun _ => ZXColor.white) ZXBrightness.normal).pix a bb =
        (set_color_seq wFB 0 0 (fun _ => ZXColor.white) ZXBrightness.normal).pix a bb :=
  ⟨by decide,
    set_colors_equiv_eight_set_color wFB 0 0 (fun _ => ZXColor.white) ZXBrightness.normal
      (by decide)⟩

end Rustzx
